import Mathlib

/-!
# Chiikawa Tetris — shallow embedding of the game-rules engine

This file embeds the core game logic of `tetris.py` (the `Piece`, `Board`
and `Game` classes) into Lean 4 and proves properties about it.

Conventions of the embedding:
* Cell coordinates are `Int × Int` (row, col); rows may be negative during
  spawn/rotation checks, exactly as in the Python source.
* The grid is a `List` of rows, each row a `List (Option PieceType)`;
  `none` is an empty cell, mirroring Python's `None`.
* `random.shuffle` is modelled by an oracle stream of refill lists carried
  in the game state (`rand`); `pygame.time.get_ticks()` is modelled by an
  explicit `now : Nat` argument to the operations that read the clock.
* Python `while` loops are translated either with an explicit fuel bound
  (`clearLoop`, where 2 × BOARD_HEIGHT iterations provably suffice for a
  20-row grid) or by well-founded recursion on the distance to the floor
  (`dropLoop`, `ghostLoop`).
-/

namespace Tetris

/-- The seven tetromino types (keys of the Python `TETROMINOES` dict,
in dict-insertion order I, O, T, S, Z, J, L). -/
inductive PieceType
  | I | O | T | S | Z | J | L
deriving DecidableEq, Repr

/-- `list(TETROMINOES.keys())` in Python's dict order. -/
def allTypesList : List PieceType := [.I, .O, .T, .S, .Z, .J, .L]

/-- `BOARD_WIDTH = 10`. -/
def BOARD_WIDTH : Nat := 10

/-- `BOARD_HEIGHT = 20`. -/
def BOARD_HEIGHT : Nat := 20

/-- `FALL_SPEED = 500` (milliseconds). -/
def FALL_SPEED : Nat := 500

/-- The `TETROMINOES` table: for each type, the list of 4 rotation states,
each a list of `(row, col)` offsets from the piece origin. -/
def TETROMINOES : PieceType → List (List (Int × Int))
  | .I => [[(0, 0), (0, 1), (0, 2), (0, 3)],
           [(0, 2), (1, 2), (2, 2), (3, 2)],
           [(2, 0), (2, 1), (2, 2), (2, 3)],
           [(0, 1), (1, 1), (2, 1), (3, 1)]]
  | .O => [[(0, 0), (0, 1), (1, 0), (1, 1)],
           [(0, 0), (0, 1), (1, 0), (1, 1)],
           [(0, 0), (0, 1), (1, 0), (1, 1)],
           [(0, 0), (0, 1), (1, 0), (1, 1)]]
  | .T => [[(0, 1), (1, 0), (1, 1), (1, 2)],
           [(0, 1), (1, 1), (1, 2), (2, 1)],
           [(1, 0), (1, 1), (1, 2), (2, 1)],
           [(0, 1), (1, 0), (1, 1), (2, 1)]]
  | .S => [[(0, 1), (0, 2), (1, 0), (1, 1)],
           [(0, 1), (1, 1), (1, 2), (2, 2)],
           [(1, 1), (1, 2), (2, 0), (2, 1)],
           [(0, 0), (1, 0), (1, 1), (2, 1)]]
  | .Z => [[(0, 0), (0, 1), (1, 1), (1, 2)],
           [(0, 2), (1, 1), (1, 2), (2, 1)],
           [(1, 0), (1, 1), (2, 1), (2, 2)],
           [(0, 1), (1, 0), (1, 1), (2, 0)]]
  | .J => [[(0, 0), (1, 0), (1, 1), (1, 2)],
           [(0, 1), (0, 2), (1, 1), (2, 1)],
           [(1, 0), (1, 1), (1, 2), (2, 2)],
           [(0, 1), (1, 1), (2, 0), (2, 1)]]
  | .L => [[(0, 2), (1, 0), (1, 1), (1, 2)],
           [(0, 1), (1, 1), (2, 1), (2, 2)],
           [(1, 0), (1, 1), (1, 2), (2, 0)],
           [(0, 0), (0, 1), (1, 1), (2, 1)]]

/-- A falling piece (the `Piece` class).  `rotation_index` is kept in
`Fin 4`: in the Python source it is an `int` that is always reduced
`% 4` by `rotate_cw` / `rotate_ccw`, so it stays in `{0,1,2,3}`. -/
structure Piece where
  type : PieceType
  rotation_index : Fin 4
  row : Int
  col : Int
deriving DecidableEq, Repr

/-- `Piece.__init__`: starting position row 0, col `BOARD_WIDTH // 2 - 2`. -/
def newPiece (t : PieceType) : Piece :=
  { type := t, rotation_index := 0, row := 0,
    col := (BOARD_WIDTH : Int) / 2 - 2 }

/-- `Piece.get_cells_at`: offsets of the given rotation applied to the
given anchor. -/
def Piece.get_cells_at (p : Piece) (row col : Int) (rotation : Fin 4) :
    List (Int × Int) :=
  ((TETROMINOES p.type).getD rotation.val []).map
    fun o => (row + o.1, col + o.2)

/-- `Piece.get_cells`: cells at the piece's current anchor and rotation. -/
def Piece.get_cells (p : Piece) : List (Int × Int) :=
  p.get_cells_at p.row p.col p.rotation_index

/-- `Piece.rotate_cw`: `(rotation_index + 1) % 4`. -/
def Piece.rotate_cw (p : Piece) : Fin 4 := p.rotation_index + 1

/-- `Piece.rotate_ccw`: `(rotation_index - 1) % 4` (Python `%` wraps to 3
from 0, matching `Fin 4` subtraction). -/
def Piece.rotate_ccw (p : Piece) : Fin 4 := p.rotation_index - 1

/-- A grid cell: the locked piece type, or `none` for empty. -/
abbrev Cell := Option PieceType

/-- A board row, left to right. -/
abbrev Row := List Cell

/-- The board grid, `grid[row][col]`, row 0 at the top. -/
abbrev Grid := List Row

/-- An empty row of `BOARD_WIDTH` cells. -/
def emptyRow : Row := List.replicate BOARD_WIDTH none

/-- `Board.__init__`: a `BOARD_HEIGHT × BOARD_WIDTH` grid of empty cells. -/
def initial_grid : Grid := List.replicate BOARD_HEIGHT emptyRow

/-- `Board.is_valid_position`: all cells within horizontal bounds, below
the (exclusive) bottom, and — for visible (non-negative) rows — not
occupied.  Negative rows are allowed for spawning. -/
def is_valid_position (g : Grid) (cells : List (Int × Int)) : Bool :=
  cells.all fun c =>
    if c.2 < 0 ∨ (BOARD_WIDTH : Int) ≤ c.2 then false
    else if (BOARD_HEIGHT : Int) ≤ c.1 then false
    else if 0 ≤ c.1 ∧ ((g.getD c.1.toNat []).getD c.2.toNat none).isSome
      then false
    else true

/-- The loop body of `Board.lock_piece`: write type `t` at one cell if it
lies inside `[0, BOARD_HEIGHT) × [0, BOARD_WIDTH)`, else skip it. -/
def lockCell (t : PieceType) (acc : Grid) (c : Int × Int) : Grid :=
  if 0 ≤ c.1 ∧ c.1 < (BOARD_HEIGHT : Int) ∧
     0 ≤ c.2 ∧ c.2 < (BOARD_WIDTH : Int) then
    acc.set c.1.toNat ((acc.getD c.1.toNat []).set c.2.toNat (some t))
  else acc

/-- `Board.lock_piece`: write the piece's type into every cell of the
piece that lies inside the board; cells outside are silently skipped. -/
def lock_piece_board (g : Grid) (p : Piece) : Grid :=
  p.get_cells.foldl (lockCell p.type) g

/-- A row is complete iff every cell is non-empty
(`all(cell is not None for cell in self.grid[row])`). -/
def isFull (r : Row) : Bool := r.all fun cell => cell.isSome

/-- The `while` loop of `Board.clear_lines`, with an explicit fuel bound.
`r` is the current scan index plus one (so `r = 0` means the Python index
has gone below 0 and the loop exits).  When the row at index `r - 1` is
complete it is deleted, an empty row is inserted at the top, and the same
index is examined again; otherwise the index decrements.  The fuel only
bounds the iteration count; `clearLoop_spec` below shows
`2 * BOARD_HEIGHT` iterations always suffice for a 20-row grid. -/
def clearLoop : Nat → Grid → Nat → Nat → Grid × Nat
  | 0, g, cleared, _ => (g, cleared)
  | _ + 1, g, cleared, 0 => (g, cleared)
  | fuel + 1, g, cleared, r + 1 =>
    if isFull (g.getD r []) then
      clearLoop fuel (emptyRow :: g.eraseIdx r) (cleared + 1) (r + 1)
    else
      clearLoop fuel g cleared r

/-- `Board.clear_lines`: clear completed lines bottom-to-top and return
the new grid together with the number of lines cleared. -/
def clear_lines (g : Grid) : Grid × Nat :=
  clearLoop (2 * BOARD_HEIGHT) g 0 BOARD_HEIGHT

/-- The game state (the mutable fields of the `Game` class).
`rand` is an oracle stream of the shuffled lists that successive
`random.shuffle` calls would produce; `last_fall_time` holds the last
`pygame.time.get_ticks()` reading. -/
structure Game where
  board : Grid
  current_piece : Option Piece
  next_piece : Option Piece
  score : Nat
  level : Nat
  lines_cleared : Nat
  game_over : Bool
  paused : Bool
  last_fall_time : Nat
  fall_speed : Nat
  piece_bag : List PieceType
  rand : List (List Tetris.PieceType)
deriving DecidableEq, Repr

/-- `Game.get_next_piece_type`: refill the bag from the shuffle oracle when
empty, then pop the last element.  (`getLastD .I` can only fall back to its
default if an oracle entry is the empty list, which never models a real
`random.shuffle` of the 7 types.) -/
def Game.get_next_piece_type (g : Game) : PieceType × Game :=
  if g.piece_bag.isEmpty then
    let bag := g.rand.headD allTypesList
    (bag.getLastD .I,
      { g with piece_bag := bag.dropLast, rand := g.rand.tail })
  else
    (g.piece_bag.getLastD .I, { g with piece_bag := g.piece_bag.dropLast })

/-- `Game.spawn_piece`: promote `next` to `current` (drawing an initial
next piece first if there is none), draw a fresh `next`, and validate the
spawn position; an invalid spawn sets `game_over` and returns false,
otherwise the fall timer is reset to `now` and the result is true. -/
def Game.spawn_piece (g : Game) (now : Nat) : Bool × Game :=
  let g :=
    match g.next_piece with
    | none =>
      let (t, g') := g.get_next_piece_type
      { g' with next_piece := some (newPiece t) }
    | some _ => g
  let cur := g.next_piece
  let (t, g) := g.get_next_piece_type
  let g := { g with current_piece := cur, next_piece := some (newPiece t) }
  match cur with
  | none => (false, g)
  | some p =>
    if is_valid_position g.board p.get_cells then
      (true, { g with last_fall_time := now })
    else
      (false, { g with game_over := true })

/-- `Game.move_piece`: try to move the current piece by `(d_row, d_col)`;
commit and return true iff the displaced cells are valid. -/
def Game.move_piece (g : Game) (d_row d_col : Int) : Bool × Game :=
  match g.current_piece with
  | none => (false, g)
  | some p =>
    let new_cells :=
      p.get_cells_at (p.row + d_row) (p.col + d_col) p.rotation_index
    if is_valid_position g.board new_cells then
      let p' : Piece := { p with row := p.row + d_row, col := p.col + d_col }
      (true, { g with current_piece := some p' })
    else
      (false, g)

/-- The wall-kick `for offset in [1, -1, 2, -2]` loop of
`Game.rotate_piece`: commit the first offset whose cells are valid. -/
def tryKicks (g : Game) (p : Piece) (new_rotation : Fin 4) :
    List Int → Bool × Game
  | [] => (false, g)
  | offset :: rest =>
    if is_valid_position g.board
        (p.get_cells_at p.row (p.col + offset) new_rotation) then
      let p' : Piece := { p with rotation_index := new_rotation,
                                 col := p.col + offset }
      (true, { g with current_piece := some p' })
    else
      tryKicks g p new_rotation rest

/-- `Game.rotate_piece`: try the target rotation in place, then the
wall-kick offsets `[+1, -1, +2, -2]`. -/
def Game.rotate_piece (g : Game) (clockwise : Bool) : Bool × Game :=
  match g.current_piece with
  | none => (false, g)
  | some p =>
    let new_rotation := if clockwise then p.rotate_cw else p.rotate_ccw
    if is_valid_position g.board
        (p.get_cells_at p.row p.col new_rotation) then
      let p' : Piece := { p with rotation_index := new_rotation }
      (true, { g with current_piece := some p' })
    else
      tryKicks g p new_rotation [1, -1, 2, -2]

/-- `Game.calculate_score`: classic per-clear base times the current level
(`scores.get(lines, 0) * self.level`). -/
def calculate_score (lines level : Nat) : Nat :=
  (match lines with
   | 1 => 100 | 2 => 300 | 3 => 500 | 4 => 800 | _ => 0) * level

/-- `Game.lock_piece`: write the current piece to the board, clear lines,
update counters (note: the score is added *before* `level` is recomputed,
so `calculate_score` uses the pre-lock level), then spawn. -/
def Game.lock_piece (g : Game) (now : Nat) : Game :=
  match g.current_piece with
  | none => g
  | some p =>
    let board := lock_piece_board g.board p
    let (board, lines) := clear_lines board
    let g := { g with board := board }
    let g :=
      if 0 < lines then
        let lc := g.lines_cleared + lines
        let sc := g.score + calculate_score lines g.level
        let lv := lc / 10 + 1
        { g with lines_cleared := lc, score := sc, level := lv,
                 fall_speed := max 100 (FALL_SPEED - (lv - 1) * 50) }
      else g
    (g.spawn_piece now).2

/-- Every rotation state in the catalog is non-empty and all its row
offsets are non-negative (the shapes extend downward from the anchor). -/
theorem tet_offsets_ok (t : PieceType) :
    ((TETROMINOES t).all fun s =>
      !s.isEmpty && s.all fun o => decide (0 ≤ o.1)) = true := by
  cases t <;> rfl

/-- The catalog has exactly 4 rotation states for every type. -/
theorem TETROMINOES_length (t : PieceType) : (TETROMINOES t).length = 4 := by
  cases t <;> rfl

/-- A position that validates must have its anchor row above the floor:
the piece has a cell at row `row + dr` with `dr ≥ 0`, and validity forces
that cell's row below `BOARD_HEIGHT`. -/
theorem row_lt_of_valid (g : Grid) (p : Piece) (row col : Int) (rot : Fin 4)
    (h : is_valid_position g (p.get_cells_at row col rot) = true) :
    row < (BOARD_HEIGHT : Int) := by
  have hlen : rot.val < (TETROMINOES p.type).length := by
    rw [TETROMINOES_length]; exact rot.isLt
  have hgetD : (TETROMINOES p.type).getD rot.val [] =
      (TETROMINOES p.type)[rot.val] :=
    List.getD_eq_getElem _ _ hlen
  have hsmem : (TETROMINOES p.type)[rot.val] ∈ TETROMINOES p.type :=
    List.getElem_mem hlen
  have hok := List.all_eq_true.mp (tet_offsets_ok p.type) _ hsmem
  rw [Bool.and_eq_true] at hok
  obtain ⟨o, homem⟩ : ∃ o, o ∈ (TETROMINOES p.type)[rot.val] := by
    refine List.exists_mem_of_ne_nil _ ?_
    have h1 := hok.1
    simp only [Bool.not_eq_true'] at h1
    simpa using h1
  have honn : (0 : Int) ≤ o.1 := by
    have := List.all_eq_true.mp hok.2 o homem
    simpa using this
  have hcmem : (row + o.1, col + o.2) ∈ p.get_cells_at row col rot := by
    unfold Piece.get_cells_at
    rw [hgetD]
    exact List.mem_map_of_mem _ homem
  have hcell := List.all_eq_true.mp h _ hcmem
  simp only at hcell
  split at hcell
  · cases hcell
  · split at hcell
    · cases hcell
    · next h1 h2 => omega

/-- A well-founded measure for the descending loops: distance of the
current piece's anchor from the bottom of the board. -/
def dropMeasure (g : Game) : Nat :=
  match g.current_piece with
  | none => 0
  | some p => ((BOARD_HEIGHT : Int) + 1 - p.row).toNat

/-- A successful downward move increments the anchor row, which stays
below `BOARD_HEIGHT`. -/
theorem move_down_row (g : Game) (h : (g.move_piece 1 0).1 = true) :
    ∃ p p', g.current_piece = some p ∧
      (g.move_piece 1 0).2.current_piece = some p' ∧
      p'.row = p.row + 1 ∧ p.row + 1 < (BOARD_HEIGHT : Int) := by
  rcases hc : g.current_piece with _ | p
  · simp [Game.move_piece, hc] at h
  · simp only [Game.move_piece, hc] at h ⊢
    split at h
    · next hv =>
      rw [if_pos hv]
      exact ⟨p, _, rfl, rfl, rfl, row_lt_of_valid _ _ _ _ _ hv⟩
    · simp at h

/-- The `while self.move_piece(1, 0): cells_dropped += 1` loop of
`Game.hard_drop`. -/
def Game.dropLoop (g : Game) (count : Nat) : Game × Nat :=
  if h : (g.move_piece 1 0).1 then
    Game.dropLoop (g.move_piece 1 0).2 (count + 1)
  else
    (g, count)
termination_by dropMeasure g
decreasing_by
  obtain ⟨p, p', hc, hc', hrow, hlt⟩ := move_down_row g h
  simp only [dropMeasure, hc, hc', hrow]
  omega

/-- `Game.hard_drop`: drop to the floor, award 2 points per row dropped,
then lock. -/
def Game.hard_drop (g : Game) (now : Nat) : Game :=
  match g.current_piece with
  | none => g
  | some _ =>
    let r := g.dropLoop 0
    let g' := { r.1 with score := r.1.score + r.2 * 2 }
    g'.lock_piece now

/-- The descent loop of `Game.get_ghost_position`: advance `ghost_row`
while the next row down still validates. -/
def ghostLoop (board : Grid) (p : Piece) (ghost_row : Int) : Int :=
  if is_valid_position board
      (p.get_cells_at (ghost_row + 1) p.col p.rotation_index) then
    ghostLoop board p (ghost_row + 1)
  else
    ghost_row
termination_by ((BOARD_HEIGHT : Int) + 1 - ghost_row).toNat
decreasing_by
  next h =>
  have := row_lt_of_valid board p (ghost_row + 1) p.col p.rotation_index h
  omega

/-- `Game.get_ghost_position`: the cells where the current piece would
land; empty when there is no current piece. -/
def Game.get_ghost_position (g : Game) : List (Int × Int) :=
  match g.current_piece with
  | none => []
  | some p =>
    p.get_cells_at (ghostLoop g.board p p.row) p.col p.rotation_index

/-- `Game.update` (the gravity tick): no-op when game over or paused;
otherwise, when the fall interval has elapsed, move down or lock, and
reset the fall timer. -/
def Game.update (g : Game) (current_time : Nat) : Game :=
  if g.game_over || g.paused then g
  else if g.fall_speed ≤ current_time - g.last_fall_time then
    let r := g.move_piece 1 0
    let g' := if r.1 then r.2 else r.2.lock_piece current_time
    { g' with last_fall_time := current_time }
  else g

/-- `Game.reset_game`: fresh board, counters and bag (the shuffle oracle
stream continues from where it was), then an initial spawn. -/
def Game.reset_game (g : Game) (now : Nat) : Game :=
  let g0 : Game :=
    { board := initial_grid, current_piece := none, next_piece := none,
      score := 0, level := 1, lines_cleared := 0, game_over := false,
      paused := false, last_fall_time := now, fall_speed := FALL_SPEED,
      piece_bag := [], rand := g.rand }
  (g0.spawn_piece now).2

/-- The gameplay keys handled by `Game.handle_input` (`ESC`, which quits
the process, is outside the game-state model). -/
inductive Key
  | left | right | down | up | space | p | r
deriving DecidableEq, Repr

/-- `Game.handle_input` on a KEYDOWN event: after game over only `R`
(reset) does anything; `P` toggles pause; while paused the other keys are
ignored; otherwise the keys map to move/rotate/drop. -/
def Game.handle_input (g : Game) (key : Key) (now : Nat) : Game :=
  if g.game_over then
    match key with
    | .r => g.reset_game now
    | _ => g
  else if key = .p then
    { g with paused := !g.paused }
  else if g.paused then g
  else
    match key with
    | .left => (g.move_piece 0 (-1)).2
    | .right => (g.move_piece 0 1).2
    | .down =>
      let r := g.move_piece 1 0
      if r.1 then
        { r.2 with score := r.2.score + 1, last_fall_time := now }
      else r.2
    | .up => (g.rotate_piece true).2
    | .space => g.hard_drop now
    | _ => g

/-! ## Characterization of `is_valid_position` -/

/-- Workhorse characterization of `Board.is_valid_position`, shared by the
proofs below. -/
theorem valid_iff (g : Grid) (cells : List (Int × Int)) :
    is_valid_position g cells = true ↔
      ∀ c ∈ cells, 0 ≤ c.2 ∧ c.2 < (BOARD_WIDTH : Int) ∧
        c.1 < (BOARD_HEIGHT : Int) ∧
        (0 ≤ c.1 → (g.getD c.1.toNat []).getD c.2.toNat none = none) := by
  unfold is_valid_position
  rw [List.all_eq_true]
  refine forall_congr' fun c => forall_congr' fun _ => ?_
  constructor
  · intro h
    split at h
    · cases h
    · next h1 =>
      split at h
      · cases h
      · next h2 =>
        split at h
        · cases h
        · next h3 =>
          push_neg at h1
          refine ⟨h1.1, h1.2, by omega, fun hr => ?_⟩
          rcases ho : (g.getD c.1.toNat []).getD c.2.toNat none with _ | v
          · rfl
          · exact absurd ⟨hr, by rw [ho]; rfl⟩ h3
  · rintro ⟨h1, h2, h3, h4⟩
    rw [if_neg (by omega), if_neg (by omega), if_neg]
    rintro ⟨hr, hs⟩
    rw [h4 hr] at hs
    cases hs

/-- C5: `is_valid_position` returns true iff every cell's column lies in
`[0, 10)`, every cell's row is `< 20` (negative rows permitted), and
every cell with row `≥ 0` is empty in the grid; any violation yields
false.  (The embedding is total, so no exception can be raised.) -/
theorem C5_is_valid_position_iff (g : Grid) (cells : List (Int × Int)) :
    is_valid_position g cells = true ↔
      ∀ c ∈ cells, 0 ≤ c.2 ∧ c.2 < 10 ∧ c.1 < 20 ∧
        (0 ≤ c.1 → (g.getD c.1.toNat []).getD c.2.toNat none = none) := by
  have h := valid_iff g cells
  simpa [BOARD_WIDTH, BOARD_HEIGHT] using h

/-- Closed instance of `C5_is_valid_position_iff`. -/
theorem C5_is_valid_position_iff_witness :
    is_valid_position initial_grid [((0 : Int), (3 : Int))] = true ↔
      ∀ c ∈ [((0 : Int), (3 : Int))], 0 ≤ c.2 ∧ c.2 < 10 ∧ c.1 < 20 ∧
        (0 ≤ c.1 →
          (initial_grid.getD c.1.toNat []).getD c.2.toNat none = none) :=
  C5_is_valid_position_iff initial_grid [((0 : Int), (3 : Int))]

/-! ## Move, rotate, and the game-over freeze -/

/-- A concrete game state used to instantiate theorems with hypotheses:
a fresh board with a T piece at spawn. -/
def exGame : Game :=
  { board := initial_grid, current_piece := some (newPiece .T),
    next_piece := some (newPiece .I), score := 0, level := 1,
    lines_cleared := 0, game_over := false, paused := false,
    last_fall_time := 0, fall_speed := FALL_SPEED, piece_bag := [.O],
    rand := [] }

/-- C8: `move_piece` commits the delta and returns true exactly when the
displaced cells validate; otherwise (and when there is no current piece)
it returns false and the whole state is unchanged. -/
theorem C8_move_piece_spec (g : Game) (d_row d_col : Int) :
    (g.current_piece = none → g.move_piece d_row d_col = (false, g)) ∧
    ∀ p, g.current_piece = some p →
      (is_valid_position g.board
          (p.get_cells_at (p.row + d_row) (p.col + d_col)
            p.rotation_index) = true →
        g.move_piece d_row d_col =
          (true, { g with
            current_piece := some ({ p with row := p.row + d_row, col := p.col + d_col }) })) ∧
      (is_valid_position g.board
          (p.get_cells_at (p.row + d_row) (p.col + d_col)
            p.rotation_index) = false →
        g.move_piece d_row d_col = (false, g)) := by
  constructor
  · intro h
    simp [Game.move_piece, h]
  · intro p hp
    constructor
    · intro hv
      simp [Game.move_piece, hp, hv]
    · intro hv
      simp [Game.move_piece, hp, hv]

/-- Closed instance of `C8_move_piece_spec`: moving the spawn T piece one
column right on an empty board succeeds and updates only the anchor. -/
theorem C8_move_piece_spec_witness :
    Game.move_piece exGame 0 1 =
      (true, { exGame with
        current_piece := some ({ newPiece .T with row := (newPiece .T).row + 0, col := (newPiece .T).col + 1 }) }) :=
  ((C8_move_piece_spec exGame 0 1).2 (newPiece .T) rfl).1 (by decide)

/-- C4: `rotate_piece` first tests the target rotation in place; if that
fails it tries the column offsets `[+1, -1, +2, -2]` in order, committing
the first that validates (rotation index and anchor column together); if
all fail it returns false with the piece unchanged. -/
theorem C4_rotate_piece_spec (g : Game) (clockwise : Bool) (p : Piece)
    (hc : g.current_piece = some p) :
    ∀ nr, nr = (if clockwise then p.rotate_cw else p.rotate_ccw) →
      (is_valid_position g.board (p.get_cells_at p.row p.col nr) = true →
        g.rotate_piece clockwise =
          (true, { g with
            current_piece := some ({ p with rotation_index := nr }) })) ∧
      (is_valid_position g.board (p.get_cells_at p.row p.col nr) = false →
        (is_valid_position g.board
            (p.get_cells_at p.row (p.col + 1) nr) = true →
          g.rotate_piece clockwise =
            (true, { g with
              current_piece := some ({ p with rotation_index := nr, col := p.col + 1 }) })) ∧
        (is_valid_position g.board
            (p.get_cells_at p.row (p.col + 1) nr) = false →
          (is_valid_position g.board
              (p.get_cells_at p.row (p.col + -1) nr) = true →
            g.rotate_piece clockwise =
              (true, { g with
                current_piece := some ({ p with rotation_index := nr, col := p.col + -1 }) })) ∧
          (is_valid_position g.board
              (p.get_cells_at p.row (p.col + -1) nr) = false →
            (is_valid_position g.board
                (p.get_cells_at p.row (p.col + 2) nr) = true →
              g.rotate_piece clockwise =
                (true, { g with
                  current_piece := some ({ p with rotation_index := nr, col := p.col + 2 }) })) ∧
            (is_valid_position g.board
                (p.get_cells_at p.row (p.col + 2) nr) = false →
              (is_valid_position g.board
                  (p.get_cells_at p.row (p.col + -2) nr) = true →
                g.rotate_piece clockwise =
                  (true, { g with
                    current_piece := some ({ p with rotation_index := nr, col := p.col + -2 }) })) ∧
              (is_valid_position g.board
                  (p.get_cells_at p.row (p.col + -2) nr) = false →
                g.rotate_piece clockwise = (false, g)))))) := by
  intro nr hnr
  subst hnr
  refine ⟨fun h0 => by simp [Game.rotate_piece, hc, h0], fun h0 => ?_⟩
  refine ⟨fun h1 => by simp [Game.rotate_piece, tryKicks, hc, h0, h1],
    fun h1 => ?_⟩
  refine ⟨fun h2 => by simp [Game.rotate_piece, tryKicks, hc, h0, h1, h2],
    fun h2 => ?_⟩
  refine ⟨fun h3 => by
    simp [Game.rotate_piece, tryKicks, hc, h0, h1, h2, h3], fun h3 => ?_⟩
  exact ⟨fun h4 => by
      simp [Game.rotate_piece, tryKicks, hc, h0, h1, h2, h3, h4],
    fun h4 => by simp [Game.rotate_piece, tryKicks, hc, h0, h1, h2, h3, h4]⟩

/-- Closed instance of `C4_rotate_piece_spec`: rotating the spawn T piece
clockwise on an empty board succeeds in place. -/
theorem C4_rotate_piece_spec_witness :
    Game.rotate_piece exGame true =
      (true, { exGame with
        current_piece := some ({ newPiece .T with rotation_index := (newPiece .T).rotate_cw }) }) :=
  (C4_rotate_piece_spec exGame true (newPiece .T) rfl
    ((newPiece .T).rotate_cw) (by decide)).1 (by decide)

/-- C2: once `game_over` is set, the gravity tick and every gameplay key
other than `R` (reset) leave the state completely unchanged. -/
theorem C2_game_over_freezes (g : Game) (t now : Nat)
    (h : g.game_over = true) :
    g.update t = g ∧ ∀ k : Key, k ≠ Key.r → g.handle_input k now = g := by
  constructor
  · unfold Game.update
    rw [h]
    simp
  · intro k hk
    unfold Game.handle_input
    rw [h]
    cases k <;> simp_all

/-- Closed instance of `C2_game_over_freezes` at a topped-out game. -/
theorem C2_game_over_freezes_witness :
    Game.update { exGame with game_over := true } 1000 =
        { exGame with game_over := true } ∧
      Game.handle_input { exGame with game_over := true } .left 1000 =
        { exGame with game_over := true } :=
  ⟨(C2_game_over_freezes _ 1000 1000 rfl).1,
   (C2_game_over_freezes _ 1000 1000 rfl).2 .left (by decide)⟩

/-! ## Characterization of `Board.lock_piece` -/

/-- Reading back the index just written by `List.set`. -/
theorem getD_set_eq {α : Type} (l : List α) (i : Nat) (v d : α)
    (h : i < l.length) : (l.set i v).getD i d = v := by
  simp [List.getD_eq_getElem?_getD, List.getElem?_set_self, h]

/-- Reading an index other than the one written by `List.set`. -/
theorem getD_set_ne {α : Type} (l : List α) {i j : Nat} (v d : α)
    (h : i ≠ j) : (l.set i v).getD j d = l.getD j d := by
  simp [List.getD_eq_getElem?_getD, List.getElem?_set_ne h]

/-- `lockCell` never changes the number of rows. -/
theorem lockCell_length (t : PieceType) (g : Grid) (c : Int × Int) :
    (lockCell t g c).length = g.length := by
  unfold lockCell
  split <;> simp

/-- `lockCell` preserves the width of every row. -/
theorem lockCell_widths (t : PieceType) (g : Grid) (c : Int × Int)
    (hlen : g.length = BOARD_HEIGHT)
    (hw : ∀ row ∈ g, row.length = BOARD_WIDTH) :
    ∀ row ∈ lockCell t g c, row.length = BOARD_WIDTH := by
  unfold lockCell
  split
  · next hin =>
    intro row hrow
    rcases List.mem_or_eq_of_mem_set hrow with h | h
    · exact hw _ h
    · subst h
      rw [List.length_set]
      have hr : c.1.toNat < g.length := by omega
      have : g.getD c.1.toNat [] ∈ g := by
        rw [List.getD_eq_getElem g [] hr]
        exact List.getElem_mem hr
      exact hw _ this
  · exact hw

/-- Value of a single cell after one `lockCell` step. -/
theorem lockCell_getD (t : PieceType) (g : Grid) (c : Int × Int)
    (r cc : Nat) (hlen : g.length = BOARD_HEIGHT)
    (hw : ∀ row ∈ g, row.length = BOARD_WIDTH)
    (hr : r < BOARD_HEIGHT) (hc : cc < BOARD_WIDTH) :
    ((lockCell t g c).getD r []).getD cc none =
      if c = ((r : Int), (cc : Int)) then some t
      else (g.getD r []).getD cc none := by
  obtain ⟨x, y⟩ := c
  have hrow : (g.getD r []).length = BOARD_WIDTH := by
    have hrl : r < g.length := by omega
    refine hw _ ?_
    rw [List.getD_eq_getElem g [] hrl]
    exact List.getElem_mem hrl
  by_cases hce : ((x, y) : Int × Int) = ((r : Int), (cc : Int))
  · rw [if_pos hce]
    obtain ⟨hx, hy⟩ := Prod.mk.injEq .. ▸ hce
    unfold lockCell
    rw [if_pos (by constructor <;> omega)]
    have hxr : x.toNat = r := by omega
    have hyc : y.toNat = cc := by omega
    simp only [hxr, hyc]
    rw [getD_set_eq _ _ _ _ (by omega), getD_set_eq _ _ _ _ (by omega)]
  · rw [if_neg hce]
    unfold lockCell
    split
    · next hin =>
      simp only at hin
      have hne : x.toNat ≠ r ∨ y.toNat ≠ cc := by
        by_contra hb
        push_neg at hb
        exact hce (by simp only [Prod.mk.injEq]; omega)
      by_cases hxr : x.toNat = r
      · subst hxr
        have hyn : y.toNat ≠ cc := by tauto
        rw [getD_set_eq _ _ _ _ (by omega), getD_set_ne _ _ _ hyn]
      · rw [getD_set_ne _ _ _ hxr]
    · rfl

/-- Folding `lockCell` over a list of cells: grid shape is preserved and
a visible cell holds `some t` exactly when it occurs in the list. -/
theorem lockFold_spec (t : PieceType) (cs : List (Int × Int)) :
    ∀ (g : Grid), g.length = BOARD_HEIGHT →
    (∀ row ∈ g, row.length = BOARD_WIDTH) →
    (cs.foldl (lockCell t) g).length = BOARD_HEIGHT ∧
    (∀ row ∈ cs.foldl (lockCell t) g, row.length = BOARD_WIDTH) ∧
    ∀ r cc : Nat, r < BOARD_HEIGHT → cc < BOARD_WIDTH →
      ((cs.foldl (lockCell t) g).getD r []).getD cc none =
        if ((r : Int), (cc : Int)) ∈ cs then some t
        else (g.getD r []).getD cc none := by
  induction cs with
  | nil => intro g hlen hw; simpa using ⟨hlen, hw⟩
  | cons c0 rest ih =>
    intro g hlen hw
    have hlen' : (lockCell t g c0).length = BOARD_HEIGHT := by
      rw [lockCell_length]; exact hlen
    have hw' := lockCell_widths t g c0 hlen hw
    obtain ⟨ih1, ih2, ih3⟩ := ih (lockCell t g c0) hlen' hw'
    refine ⟨by simpa using ih1, by simpa using ih2, ?_⟩
    intro r cc hr hc
    rw [List.foldl_cons, ih3 r cc hr hc,
       lockCell_getD t g c0 r cc hlen hw hr hc]
    by_cases h1 : ((r : Int), (cc : Int)) ∈ rest
    · simp [h1]
    · by_cases h2 : c0 = ((r : Int), (cc : Int))
      · simp [h1, h2]
      · have h2' : ((r : Int), (cc : Int)) ≠ c0 := fun h => h2 h.symm
        simp [h1, h2, h2']

/-- C6: `lock_piece` writes the piece's type into exactly those piece
cells inside `[0, 20) × [0, 10)`, leaves every other grid cell unchanged,
and preserves the grid's shape (so out-of-range / negative-row piece
cells are skipped and no out-of-bounds access occurs). -/
theorem C6_lock_piece_spec (g : Grid) (p : Piece)
    (hlen : g.length = BOARD_HEIGHT)
    (hw : ∀ row ∈ g, row.length = BOARD_WIDTH) :
    (lock_piece_board g p).length = BOARD_HEIGHT ∧
    (∀ row ∈ lock_piece_board g p, row.length = BOARD_WIDTH) ∧
    ∀ r cc : Nat, r < BOARD_HEIGHT → cc < BOARD_WIDTH →
      ((lock_piece_board g p).getD r []).getD cc none =
        if ((r : Int), (cc : Int)) ∈ p.get_cells then some p.type
        else (g.getD r []).getD cc none :=
  lockFold_spec p.type p.get_cells g hlen hw

/-- Closed instance of `C6_lock_piece_spec`: locking the spawn T piece on
an empty board, checked at cell (0, 4). -/
theorem C6_lock_piece_spec_witness :
    ((lock_piece_board initial_grid (newPiece .T)).getD 0 []).getD 4 none =
      if ((0 : Int), (4 : Int)) ∈ (newPiece .T).get_cells
      then some PieceType.T
      else ((initial_grid.getD 0 []).getD 4 none) :=
  (C6_lock_piece_spec initial_grid (newPiece .T) (by decide)
    (by decide)).2.2 0 4 (by decide) (by decide)

/-! ## Characterization of `Board.clear_lines` -/

/-- The empty row is not a complete row. -/
theorem isFull_emptyRow : isFull emptyRow = false := by decide

/-- Invariant of the `clear_lines` scan: once every row strictly below
index `r` is incomplete, running the loop from `r` removes exactly the
complete rows among the first `r`, prepends that many empty rows, and
adds that count to the accumulator.  `r + (completed rows above r)` is a
bound on the remaining iterations, so any fuel at least that large gives
the fuel-free result. -/
theorem clearLoop_spec :
    ∀ (fuel : Nat) (g : Grid) (cleared r : Nat),
      r ≤ g.length →
      (∀ row ∈ g.drop r, isFull row = false) →
      r + (g.take r).countP isFull ≤ fuel →
      clearLoop fuel g cleared r =
        (List.replicate ((g.take r).countP isFull) emptyRow ++
          g.filter (fun row => !isFull row),
         cleared + (g.take r).countP isFull) := by
  intro fuel
  induction fuel with
  | zero =>
    intro g cleared r hr hdrop hfuel
    have hr0 : r = 0 := by omega
    subst hr0
    simp only [List.take_zero, List.countP_nil, List.replicate_zero,
      List.nil_append, Nat.add_zero, List.drop_zero] at *
    rw [List.filter_eq_self.mpr (fun a ha => by simp [hdrop a ha])]
    rfl
  | succ fuel ih =>
    intro g cleared r hr hdrop hfuel
    match r with
    | 0 =>
      simp only [List.take_zero, List.countP_nil, List.replicate_zero,
        List.nil_append, Nat.add_zero, List.drop_zero] at *
      rw [List.filter_eq_self.mpr (fun a ha => by simp [hdrop a ha])]
      rfl
    | r' + 1 =>
      have hr' : r' < g.length := by omega
      have hgetD : g.getD r' [] = g[r'] := List.getD_eq_getElem g [] hr'
      have htake : g.take (r' + 1) = g.take r' ++ [g[r']] := by
        rw [List.take_succ, List.getElem?_eq_getElem hr']
        rfl
      have hcnt : (g.take (r' + 1)).countP isFull =
          (g.take r').countP isFull + if isFull g[r'] then 1 else 0 := by
        rw [htake, List.countP_append]
        simp [List.countP_cons]
      have htklen : (g.take r').length = r' := by
        simp [Nat.le_of_lt hr']
      rw [clearLoop]
      by_cases hfull : isFull g[r'] = true
      · rw [hgetD, if_pos hfull]
        have herase : g.eraseIdx r' = g.take r' ++ g.drop (r' + 1) :=
          List.eraseIdx_eq_take_drop_succ g r'
        have hlen' : (emptyRow :: g.eraseIdx r').length = g.length := by
          rw [List.length_cons, List.length_eraseIdx]
          simp [hr']
          omega
        have htake' : (emptyRow :: g.eraseIdx r').take (r' + 1) =
            emptyRow :: g.take r' := by
          rw [List.take_succ_cons, herase,
            List.take_append_of_le_length (by rw [htklen]),
            List.take_take]
          simp
        have hdrop' : (emptyRow :: g.eraseIdx r').drop (r' + 1) =
            g.drop (r' + 1) := by
          rw [List.drop_succ_cons, herase,
            List.drop_append_of_le_length (by rw [htklen]),
            List.drop_eq_nil_of_le (le_of_eq htklen), List.nil_append]
        have hcnt' : ((emptyRow :: g.eraseIdx r').take (r' + 1)).countP
            isFull = (g.take r').countP isFull := by
          rw [htake', List.countP_cons]
          simp [isFull_emptyRow]
        have hdh : ∀ row ∈ (emptyRow :: g.eraseIdx r').drop (r' + 1),
            isFull row = false := by
          rw [hdrop']
          exact hdrop
        have hfuel' : r' + 1 +
            ((emptyRow :: g.eraseIdx r').take (r' + 1)).countP isFull ≤
              fuel := by
          rw [hcnt']
          rw [hcnt, hfull] at hfuel
          simp at hfuel
          omega
        rw [ih (emptyRow :: g.eraseIdx r') (cleared + 1) (r' + 1)
          (by omega) hdh hfuel']
        have hfiltg : g.filter (fun row => !isFull row) =
            (g.eraseIdx r').filter (fun row => !isFull row) := by
          conv_lhs => rw [← List.take_append_drop (r' + 1) g]
          rw [htake, herase]
          simp only [List.filter_append, List.append_assoc]
          congr 1
          rw [List.filter_cons]
          simp [hfull]
        have hfilt' : (emptyRow :: g.eraseIdx r').filter
            (fun row => !isFull row) =
              emptyRow :: (g.eraseIdx r').filter (fun row => !isFull row) := by
          rw [List.filter_cons]
          simp [isFull_emptyRow]
        rw [hcnt', hfilt', hfiltg, hcnt, hfull]
        simp only [if_true]
        simp only [Prod.mk.injEq]
        constructor
        · rw [List.replicate_succ' ((g.take r').countP isFull) emptyRow]
          simp [List.append_assoc]
        · omega
      · have hfull' : isFull g[r'] = false := by
          simp at hfull
          exact hfull
        rw [hgetD, if_neg (by simp [hfull'])]
        have hdh : ∀ row ∈ g.drop r', isFull row = false := by
          rw [List.drop_eq_getElem_cons hr']
          intro row hrow
          rcases List.mem_cons.mp hrow with h | h
          · rw [h]; exact hfull'
          · exact hdrop row h
        have hcnt0 : (g.take (r' + 1)).countP isFull =
            (g.take r').countP isFull := by
          rw [hcnt, hfull']
          simp
        have hfuel' : r' + (g.take r').countP isFull ≤ fuel := by
          rw [hcnt0] at hfuel
          omega
        rw [ih g cleared r' (by omega) hdh hfuel']
        rw [hcnt0]

/-- Functional characterization of `clear_lines` on a 20-row grid:
the complete rows are removed (order of the rest preserved), that many
empty rows are prepended, and their number is returned. -/
theorem clear_lines_eq (g : Grid) (hlen : g.length = BOARD_HEIGHT) :
    clear_lines g =
      (List.replicate (g.countP isFull) emptyRow ++
        g.filter (fun row => !isFull row),
       g.countP isFull) := by
  unfold clear_lines
  have htake : g.take BOARD_HEIGHT = g := by
    rw [← hlen, List.take_length]
  have hdrop : g.drop BOARD_HEIGHT = [] := by
    rw [← hlen, List.drop_length]
  have hcnt : (g.take BOARD_HEIGHT).countP isFull ≤ BOARD_HEIGHT := by
    calc (g.take BOARD_HEIGHT).countP isFull
        ≤ (g.take BOARD_HEIGHT).length := List.countP_le_length _
      _ ≤ BOARD_HEIGHT := by rw [htake, hlen]
  rw [clearLoop_spec (2 * BOARD_HEIGHT) g 0 BOARD_HEIGHT (le_of_eq hlen.symm)
    (by rw [hdrop]; intro row h; cases h) (by omega)]
  rw [htake]
  simp

/-- C3: on a 20-row grid, `clear_lines` removes exactly the rows whose
cells are all non-empty, prepends one empty row per removal (preserving
the relative order of the remaining rows), and returns the number of rows
removed; on the all-empty starting grid it returns 0 and leaves the grid
unchanged. -/
theorem C3_clear_lines_spec (g : Grid) (hlen : g.length = BOARD_HEIGHT) :
    clear_lines g =
      (List.replicate (g.countP isFull) emptyRow ++
        g.filter (fun row => !isFull row),
       g.countP isFull) ∧
    clear_lines initial_grid = (initial_grid, 0) := by
  refine ⟨clear_lines_eq g hlen, ?_⟩
  rw [clear_lines_eq initial_grid (by decide)]
  decide

/-- Closed instance of `C3_clear_lines_spec` at the empty starting grid. -/
theorem C3_clear_lines_spec_witness :
    (clear_lines initial_grid =
      (List.replicate (initial_grid.countP isFull) emptyRow ++
        initial_grid.filter (fun row => !isFull row),
       initial_grid.countP isFull) ∧
    clear_lines initial_grid = (initial_grid, 0)) :=
  C3_clear_lines_spec initial_grid (by decide)

/-! ## The grid-shape invariant -/

/-- Grids reachable from construction through any sequence of locks and
line clears. -/
inductive BoardReachable : Grid → Prop
  | init : BoardReachable initial_grid
  | lock (g : Grid) (p : Piece) :
      BoardReachable g → BoardReachable (lock_piece_board g p)
  | clear (g : Grid) :
      BoardReachable g → BoardReachable (clear_lines g).1

/-- C10: every grid reachable by `Board` construction, `lock_piece` and
`clear_lines` has exactly 20 rows of exactly 10 cells each. -/
theorem C10_grid_dims_invariant (g : Grid) (h : BoardReachable g) :
    g.length = BOARD_HEIGHT ∧ ∀ row ∈ g, row.length = BOARD_WIDTH := by
  induction h with
  | init =>
    constructor
    · decide
    · intro row hrow
      rw [List.eq_of_mem_replicate hrow]
      decide
  | lock g p _ ih =>
    obtain ⟨hlen, hw⟩ := ih
    obtain ⟨h1, h2, _⟩ := lockFold_spec p.type p.get_cells g hlen hw
    exact ⟨h1, h2⟩
  | clear g _ ih =>
    obtain ⟨hlen, hw⟩ := ih
    rw [clear_lines_eq g hlen]
    constructor
    · simp only [List.length_append, List.length_replicate]
      rw [← List.countP_eq_length_filter]
      have h1 := List.length_eq_countP_add_countP
        (p := fun row => !isFull row) (l := g)
      have h2 : List.countP (fun a => decide ¬((!isFull a) = true)) g =
          List.countP isFull g := by
        have he : (fun a : Row => decide ¬((!isFull a) = true)) = isFull := by
          funext a
          cases hx : isFull a <;> simp [hx]
        rw [he]
      omega
    · intro row hrow
      rcases List.mem_append.mp hrow with h | h
      · rw [List.eq_of_mem_replicate h]
        decide
      · exact hw row (List.mem_filter.mp h).1

/-- Closed instance of `C10_grid_dims_invariant` at the freshly
constructed board. -/
theorem C10_grid_dims_invariant_witness :
    initial_grid.length = BOARD_HEIGHT ∧
      ∀ row ∈ initial_grid, row.length = BOARD_WIDTH :=
  C10_grid_dims_invariant initial_grid BoardReachable.init

/-! ## The 7-bag randomizer -/

/-- `n` successive calls of `Game.get_next_piece_type`, collecting the
returned types in order. -/
def drawN : Nat → Game → List PieceType × Game
  | 0, g => ([], g)
  | n + 1, g =>
    let r := g.get_next_piece_type
    let s := drawN n r.2
    (r.1 :: s.1, s.2)

/-- Popping the last element of a non-empty list, then reversing the
rest, reassembles the reversed list. -/
theorem reverse_eq_getLastD_cons (l : List PieceType) (d : PieceType)
    (h : l ≠ []) : l.reverse = l.getLastD d :: l.dropLast.reverse := by
  have hD : l.getLastD d = l.getLast h := by
    rw [List.getLastD_eq_getLast?, List.getLast?_eq_getLast l h]
    rfl
  conv_lhs => rw [← List.dropLast_append_getLast h]
  rw [List.reverse_append, hD]
  rfl

/-- Draining a non-empty bag (no refill happens until it is empty) yields
the bag reversed and ends with the bag empty. -/
theorem drawN_pops (n : Nat) :
    ∀ g : Game, g.piece_bag.length = n →
      drawN n g = (g.piece_bag.reverse, { g with piece_bag := [] }) := by
  induction n with
  | zero =>
    intro g hlen
    have hnil : g.piece_bag = [] := List.length_eq_zero.mp hlen
    rw [drawN, hnil]
    cases g
    simp_all
  | succ n ih =>
    intro g hlen
    have hne : g.piece_bag ≠ [] := by
      intro hnil
      rw [hnil] at hlen
      cases hlen
    have hemp : g.piece_bag.isEmpty = false := by
      simpa [List.isEmpty_iff] using hne
    rw [drawN]
    simp only [Game.get_next_piece_type, hemp, Bool.false_eq_true,
      if_false]
    have hlen' : g.piece_bag.dropLast.length = n := by
      rw [List.length_dropLast, hlen]
      omega
    rw [ih { g with piece_bag := g.piece_bag.dropLast } hlen']
    simp only [Prod.mk.injEq]
    exact ⟨(reverse_eq_getLastD_cons g.piece_bag .I hne).symm, trivial⟩

/-- C7: a window of 7 `get_next_piece_type` calls aligned to a bag refill
yields a permutation of the 7 tetromino types (hence no repeats), and
ends with the bag empty again, so the next window is also aligned. -/
theorem C7_seven_bag_window (g : Game) (fresh : List PieceType)
    (hbag : g.piece_bag = [])
    (hrand : g.rand.headD allTypesList = fresh)
    (hperm : fresh.Perm allTypesList) :
    (drawN 7 g).1.Perm allTypesList ∧ (drawN 7 g).1.Nodup ∧
      (drawN 7 g).2.piece_bag = [] := by
  have hlen : fresh.length = 7 := by
    rw [hperm.length_eq]
    rfl
  have hne : fresh ≠ [] := by
    intro hnil
    rw [hnil] at hlen
    cases hlen
  have hemp : g.piece_bag.isEmpty = true := by
    rw [hbag]
    rfl
  have hstep : g.get_next_piece_type =
      (fresh.getLastD .I,
        { g with piece_bag := fresh.dropLast, rand := g.rand.tail }) := by
    rw [List.headD_eq_head?_getD] at hrand
    simp [Game.get_next_piece_type, hemp, hrand]
  have hlen' : fresh.dropLast.length = 6 := by
    rw [List.length_dropLast, hlen]
  have hrest := drawN_pops 6
    { g with piece_bag := fresh.dropLast, rand := g.rand.tail } hlen'
  have hdraw : drawN 7 g =
      (fresh.getLastD .I :: fresh.dropLast.reverse,
        { g with piece_bag := [], rand := g.rand.tail }) := by
    rw [show (7 : Nat) = 6 + 1 from rfl, drawN, hstep]
    simp only
    rw [hrest]
  have hrev : fresh.getLastD .I :: fresh.dropLast.reverse =
      fresh.reverse := (reverse_eq_getLastD_cons fresh .I hne).symm
  rw [hdraw]
  simp only [hrev]
  exact ⟨(List.reverse_perm fresh).trans hperm,
    ((List.reverse_perm fresh).trans hperm).nodup_iff.mpr (by decide),
    trivial⟩

/-- A game at a bag boundary, its shuffle oracle holding one refill. -/
def exGameBag : Game :=
  { exGame with piece_bag := [], rand := [allTypesList] }

/-- Closed instance of `C7_seven_bag_window` with the identity shuffle. -/
theorem C7_seven_bag_window_witness :
    (drawN 7 exGameBag).1.Perm allTypesList ∧
      (drawN 7 exGameBag).1.Nodup ∧
      (drawN 7 exGameBag).2.piece_bag = [] :=
  C7_seven_bag_window exGameBag allTypesList rfl rfl (by decide)

/-! ## Scoring at lock time -/

/-- `spawn_piece` never changes the score, level or line counters. -/
theorem spawn_fields (g : Game) (now : Nat) :
    ((g.spawn_piece now).2).score = g.score ∧
    ((g.spawn_piece now).2).level = g.level ∧
    ((g.spawn_piece now).2).lines_cleared = g.lines_cleared := by
  unfold Game.spawn_piece Game.get_next_piece_type
  cases hnp : g.next_piece <;> simp only [hnp] <;>
    refine ⟨?_, ?_, ?_⟩ <;> (repeat' split) <;> rfl

/-- The classic per-clear base values `{1:100, 2:300, 3:500, 4:800}`,
named so that statements can mention them without a dependent match. -/
def lineClearBase : Nat → Nat
  | 1 => 100 | 2 => 300 | 3 => 500 | 4 => 800 | _ => 0

/-- `calculate_score` is the base value times the level passed in. -/
theorem calculate_score_eq (lines level : Nat) :
    calculate_score lines level = lineClearBase lines * level := by
  rcases lines with _ | _ | _ | _ | _ | m <;> rfl

/-- The bottom row of the scoring scenario: columns 4–9 already filled,
columns 0–3 left for the horizontal I piece. -/
def c1Row19 : Row :=
  [none, none, none, none, some .O, some .O, some .O, some .O, some .O,
   some .O]

/-- Scoring scenario: 9 lines already cleared at level 1, a horizontal I
piece sitting at row 19 about to complete the bottom row. -/
def c1Game : Game :=
  { board := List.replicate 19 emptyRow ++ [c1Row19],
    current_piece :=
      some { type := .I, rotation_index := 0, row := 19, col := 0 },
    next_piece := some (newPiece .O), score := 0, level := 1,
    lines_cleared := 9, game_over := false, paused := false,
    last_fall_time := 0, fall_speed := FALL_SPEED, piece_bag := [.T],
    rand := [] }

/-- C1 counterexample: this lock clears 1 line, lifting the total to 10
and the recomputed level to 2, yet the score increases by 100 — the
reward is paid at the old level 1, not at the new level 2 as the claim
(`base(n) × new level`) requires. -/
theorem C1_counterexample :
    (Game.lock_piece c1Game 0).lines_cleared = c1Game.lines_cleared + 1 ∧
    (Game.lock_piece c1Game 0).level = 2 ∧
    (Game.lock_piece c1Game 0).score = c1Game.score + 100 ∧
    c1Game.score + 100 ≠
      c1Game.score + 100 * (Game.lock_piece c1Game 0).level := by
  decide

/-- C1 (amended): a lock that clears `n ≥ 1` lines adds
`base(n) × level` where `level` is the value from *before* this lock's
recompute; the recomputed level `(total + n) / 10 + 1` takes effect only
after the reward. -/
theorem C1_score_uses_pre_lock_level (g : Game) (p : Piece) (now : Nat)
    (hc : g.current_piece = some p) (n : Nat)
    (hn : (clear_lines (lock_piece_board g.board p)).2 = n)
    (hpos : 0 < n) :
    (g.lock_piece now).score = g.score + lineClearBase n * g.level ∧
    (g.lock_piece now).level = (g.lines_cleared + n) / 10 + 1 ∧
    (g.lock_piece now).lines_cleared = g.lines_cleared + n := by
  unfold Game.lock_piece
  rw [hc]
  simp only
  rw [hn, if_pos hpos]
  refine ⟨?_, ?_, ?_⟩
  · rw [(spawn_fields _ now).1, calculate_score_eq]
  · rw [(spawn_fields _ now).2.1]
  · rw [(spawn_fields _ now).2.2]

/-- Closed instance of `C1_score_uses_pre_lock_level` at the scoring
scenario. -/
theorem C1_score_uses_pre_lock_level_witness :
    (Game.lock_piece c1Game 0).score =
      c1Game.score + 100 * c1Game.level ∧
    (Game.lock_piece c1Game 0).level = (c1Game.lines_cleared + 1) / 10 + 1 ∧
    (Game.lock_piece c1Game 0).lines_cleared = c1Game.lines_cleared + 1 :=
  C1_score_uses_pre_lock_level c1Game
    { type := .I, rotation_index := 0, row := 19, col := 0 } 0 rfl 1
    (by decide) (by decide)

/-! ## Hard drop lands exactly on the ghost position -/

/-- `get_cells_at` depends on the piece only through its type. -/
theorem get_cells_at_congr (q q' : Piece) (hty : q.type = q'.type)
    (row col : Int) (rot : Fin 4) :
    q.get_cells_at row col rot = q'.get_cells_at row col rot := by
  unfold Piece.get_cells_at
  rw [hty]

/-- `ghostLoop` depends on the piece only through its type, column and
rotation index. -/
theorem ghostLoop_congr :
    ∀ (m : Nat) (b : Grid) (q q' : Piece) (x : Int),
      q.type = q'.type → q.col = q'.col →
      q.rotation_index = q'.rotation_index →
      (((BOARD_HEIGHT : Int) + 1) - x).toNat = m →
      ghostLoop b q x = ghostLoop b q' x := by
  intro m
  induction m using Nat.strong_induction_on with
  | _ m ih =>
    intro b q q' x hty hcol hrot hm
    have e1 : ghostLoop b q x =
        if is_valid_position b
            (q.get_cells_at (x + 1) q.col q.rotation_index) = true then
          ghostLoop b q (x + 1)
        else x := by
      rw [ghostLoop]
    have e2 : ghostLoop b q' x =
        if is_valid_position b
            (q'.get_cells_at (x + 1) q'.col q'.rotation_index) = true then
          ghostLoop b q' (x + 1)
        else x := by
      rw [ghostLoop]
    have hcells : q.get_cells_at (x + 1) q.col q.rotation_index =
        q'.get_cells_at (x + 1) q'.col q'.rotation_index := by
      rw [get_cells_at_congr q q' hty, hcol, hrot]
    rw [e1, e2, hcells]
    split
    · next hval =>
      have hlt := row_lt_of_valid b q' (x + 1) q'.col q'.rotation_index hval
      exact ih (((BOARD_HEIGHT : Int) + 1) - (x + 1)).toNat (by omega)
        b q q' (x + 1) hty hcol hrot rfl
    · rfl

/-- The descent loop of `hard_drop` stops at exactly the row that
`ghostLoop` computes, leaving type, column and rotation unchanged. -/
theorem dropLoop_ghost :
    ∀ (m : Nat) (g : Game) (p : Piece) (c : Nat),
      g.current_piece = some p →
      (((BOARD_HEIGHT : Int) + 1) - p.row).toNat = m →
      ∃ p', (g.dropLoop c).1.current_piece = some p' ∧
        p'.type = p.type ∧ p'.col = p.col ∧
        p'.rotation_index = p.rotation_index ∧
        p'.row = ghostLoop g.board p p.row := by
  intro m
  induction m using Nat.strong_induction_on with
  | _ m ih =>
    intro g p c hc hm
    rw [Game.dropLoop]
    by_cases h : (g.move_piece 1 0).1 = true
    · rw [dif_pos h]
      have hv : is_valid_position g.board
          (p.get_cells_at (p.row + 1) p.col p.rotation_index) = true := by
        by_contra hnv
        rw [Bool.not_eq_true] at hnv
        simp [Game.move_piece, hc, hnv] at h
      have hmv : g.move_piece 1 0 =
          (true, { g with current_piece := some ({ p with row := p.row + 1, col := p.col }) }) := by
        simp [Game.move_piece, hc, hv]
      have hlt : p.row + 1 < (BOARD_HEIGHT : Int) :=
        row_lt_of_valid g.board p (p.row + 1) p.col p.rotation_index hv
      rw [hmv]
      obtain ⟨p', h1, hty, hcol, hrot, hrow⟩ :=
        ih (((BOARD_HEIGHT : Int) + 1) - (p.row + 1)).toNat (by omega)
          { g with current_piece := some ({ p with row := p.row + 1, col := p.col }) }
          { p with row := p.row + 1, col := p.col } (c + 1) rfl rfl
      refine ⟨p', h1, hty, hcol, hrot, ?_⟩
      rw [hrow]
      have hcongr := ghostLoop_congr
        (((BOARD_HEIGHT : Int) + 1) - (p.row + 1)).toNat g.board
        { p with row := p.row + 1, col := p.col } p (p.row + 1)
        rfl rfl rfl rfl
      rw [hcongr]
      have estep : ghostLoop g.board p p.row =
          ghostLoop g.board p (p.row + 1) := by
        conv_lhs => rw [ghostLoop]
        rw [if_pos hv]
      rw [estep]
    · rw [dif_neg h]
      have hv : is_valid_position g.board
          (p.get_cells_at (p.row + 1) p.col p.rotation_index) = false := by
        cases hb : is_valid_position g.board
          (p.get_cells_at (p.row + 1) p.col p.rotation_index)
        · rfl
        · exact absurd (by simp [Game.move_piece, hc, hb]) h
      refine ⟨p, hc, rfl, rfl, rfl, ?_⟩
      conv_rhs => rw [ghostLoop]
      rw [if_neg (by simp [hv])]

/-- C9: for any state with a current piece, the piece state at which the
`hard_drop` descent loop stops (the piece just before it is locked) has
the same anchor column and rotation index as before the drop, and its
cells are exactly `get_ghost_position` of the pre-drop state. -/
theorem C9_hard_drop_matches_ghost (g : Game) (p : Piece)
    (hc : g.current_piece = some p) :
    ∃ p', (g.dropLoop 0).1.current_piece = some p' ∧
      p'.col = p.col ∧ p'.rotation_index = p.rotation_index ∧
      p'.get_cells = g.get_ghost_position := by
  obtain ⟨p', h1, hty, hcol, hrot, hrow⟩ :=
    dropLoop_ghost (((BOARD_HEIGHT : Int) + 1) - p.row).toNat g p 0 hc rfl
  refine ⟨p', h1, hcol, hrot, ?_⟩
  unfold Game.get_ghost_position
  rw [hc]
  simp only
  unfold Piece.get_cells
  rw [get_cells_at_congr p' p hty, hcol, hrot, hrow]

/-- Closed instance of `C9_hard_drop_matches_ghost` at the spawn T piece
on an empty board. -/
theorem C9_hard_drop_matches_ghost_witness :
    ∃ p', (Game.dropLoop exGame 0).1.current_piece = some p' ∧
      p'.col = (newPiece .T).col ∧
      p'.rotation_index = (newPiece .T).rotation_index ∧
      p'.get_cells = exGame.get_ghost_position :=
  C9_hard_drop_matches_ghost exGame (newPiece .T) rfl

end Tetris
